import Mathlib

/-!
Verification of the completion-compatibility layer (`poly_completion.py`) of the
steve repository: the tool-call parser, the history sanitizer, the response
assembler and the completion gateway.  Python strings are modelled as Lean
strings, Python `json` values as the inductive `Json` below, and the
nondeterministic `uuid.uuid4()` as an explicit supply `fresh : Nat → String`.
-/

namespace Steve

/-- Left brace character, written via its code point. -/
def lbrace : Char := Char.ofNat 123

/-- Right brace character, written via its code point. -/
def rbrace : Char := Char.ofNat 125

/-- Single-quote character, written via its code point. -/
def squote : Char := Char.ofNat 39

/-- Double-quote character. -/
def dquote : Char := Char.ofNat 34

/-- Backslash character. -/
def bslash : Char := Char.ofNat 92

/-- Characters stripped by Python `str.strip()` (the whitespace set of
`str.isspace` restricted to scalar values; exotic Unicode spaces included). -/
def pyIsSpace (c : Char) : Bool :=
  c = ' ' || c = Char.ofNat 9 || c = Char.ofNat 10 || c = Char.ofNat 13 ||
  c = Char.ofNat 11 || c = Char.ofNat 12 ||
  c = Char.ofNat 28 || c = Char.ofNat 29 || c = Char.ofNat 30 || c = Char.ofNat 31 ||
  c = Char.ofNat 133 || c = Char.ofNat 160 || c = Char.ofNat 0x1680 ||
  (0x2000 ≤ c.val && c.val ≤ 0x200a) ||
  c = Char.ofNat 0x2028 || c = Char.ofNat 0x2029 ||
  c = Char.ofNat 0x202f || c = Char.ofNat 0x205f || c = Char.ofNat 0x3000

/-- Python `str.strip()`. -/
def pyStrip (s : String) : String :=
  String.mk (((s.data.dropWhile pyIsSpace).reverse.dropWhile pyIsSpace).reverse)

/-- Line-boundary characters of Python `str.splitlines()` other than CR
(CR is handled separately so that CRLF counts as one boundary). -/
def pyIsLineBreak (c : Char) : Bool :=
  c = Char.ofNat 10 || c = Char.ofNat 11 || c = Char.ofNat 12 ||
  c = Char.ofNat 28 || c = Char.ofNat 29 || c = Char.ofNat 30 ||
  c = Char.ofNat 133 || c = Char.ofNat 0x2028 || c = Char.ofNat 0x2029

/-- Worker for `pySplitlines`: `acc` holds the current line reversed. -/
def splitlinesAux : List Char → List Char → List String
  | [], acc => if acc.isEmpty then [] else [String.mk acc.reverse]
  | c :: rest, acc =>
    if c = Char.ofNat 13 then
      match rest with
      | d :: rest2 =>
        if d = Char.ofNat 10 then String.mk acc.reverse :: splitlinesAux rest2 []
        else String.mk acc.reverse :: splitlinesAux (d :: rest2) []
      | [] => [String.mk acc.reverse]
    else if pyIsLineBreak c then String.mk acc.reverse :: splitlinesAux rest []
    else splitlinesAux rest (c :: acc)

/-- Python `str.splitlines()`. -/
def pySplitlines (s : String) : List String :=
  splitlinesAux s.data []

/-- Case-insensitive prefix test (ASCII lowering, which is all the
think-tag pattern needs). -/
def ciPrefix : List Char → List Char → Bool
  | [], _ => true
  | _ :: _, [] => false
  | p :: ps, c :: cs => p = c.toLower && ciPrefix ps cs

/-- First index at which `pat` occurs case-insensitively in `cs`. -/
def findCI (pat : List Char) : List Char → Option Nat
  | [] => if ciPrefix pat [] then some 0 else none
  | c :: cs =>
    if ciPrefix pat (c :: cs) then some 0
    else (findCI pat cs).map (· + 1)

/-- The opening tag pattern, lowercased. -/
def thinkOpen : List Char := ['<', 't', 'h', 'i', 'n', 'k', '>']

/-- The closing tag pattern, lowercased. -/
def thinkClose : List Char := ['<', '/', 't', 'h', 'i', 'n', 'k', '>']

/-- Worker for think-span removal; the fuel argument bounds the recursion
by the length of the input. -/
def removeThinkAux : Nat → List Char → List Char
  | 0, cs => cs
  | Nat.succ fuel, cs =>
    match findCI thinkOpen cs with
    | none => cs
    | some i =>
      let after := cs.drop (i + 7)
      match findCI thinkClose after with
      | none => cs
      | some j => cs.take i ++ removeThinkAux fuel (after.drop (j + 8))

/-- Model of `re.sub(r"<think>.*?</think>", "", content, flags=DOTALL|IGNORECASE)`:
remove every non-greedy, case-insensitive think span. -/
def removeThink (s : String) : String :=
  String.mk (removeThinkAux s.length s.data)

/-! ### JSON values -/

/-- Python `json` values.  Integer literals are parsed exactly; literals with a
fraction or exponent (and the constants `NaN`, `Infinity`) are kept as their raw
lexeme, since the claims under verification never exercise float arithmetic. -/
inductive Json where
  | null : Json
  | bool (b : Bool) : Json
  | int (n : Int) : Json
  | float (raw : String) : Json
  | str (s : String) : Json
  | arr (xs : List Json) : Json
  | obj (kvs : List (String × Json)) : Json

/-- Key membership in an association list, as in a Python dict. -/
def assocHas (kvs : List (String × Json)) (k : String) : Bool :=
  kvs.any (fun p => p.1 = k)

/-- Lookup in an association list; the insertion discipline of `assocInsert`
keeps at most one binding per key. -/
def assocGet (kvs : List (String × Json)) (k : String) : Option Json :=
  (kvs.find? (fun p => p.1 = k)).map (·.2)

/-- Python dict insertion: overwrite in place when the key exists, else append. -/
def assocInsert (kvs : List (String × Json)) (k : String) (v : Json) :
    List (String × Json) :=
  match kvs with
  | [] => [(k, v)]
  | (k0, v0) :: rest =>
    if k0 = k then (k0, v) :: rest else (k0, v0) :: assocInsert rest k v

/-! ### json.loads -/

/-- JSON whitespace (the four characters the Python decoder skips). -/
def jsonWs (c : Char) : Bool :=
  c = ' ' || c = Char.ofNat 9 || c = Char.ofNat 10 || c = Char.ofNat 13

/-- Drop leading JSON whitespace. -/
def skipWs (cs : List Char) : List Char := cs.dropWhile jsonWs

/-- Hex digit value. -/
def hexVal (c : Char) : Option Nat :=
  if '0' ≤ c && c ≤ '9' then some (c.toNat - 48)
  else if 'a' ≤ c && c ≤ 'f' then some (c.toNat - 87)
  else if 'A' ≤ c && c ≤ 'F' then some (c.toNat - 70)
  else none

/-- Parse exactly four hex digits. -/
def parse4Hex : List Char → Option (Nat × List Char)
  | a :: b :: c :: d :: rest =>
    match hexVal a, hexVal b, hexVal c, hexVal d with
    | some x, some y, some z, some w => some (((x * 16 + y) * 16 + z) * 16 + w, rest)
    | _, _, _, _ => none
  | _ => none

/-- Fueled worker for JSON string parsing; one unit of fuel is consumed per
produced character, so `length + 1` fuel always suffices. -/
def parseStringAux : Nat → List Char → Option (String × List Char)
  | 0, _ => none
  | _, [] => none
  | Nat.succ fuel, c :: rest =>
    if c = dquote then some ("", rest)
    else if c = bslash then
      match rest with
      | [] => none
      | e :: rest2 =>
        let simpleEsc : Option Char :=
          if e = dquote then some dquote
          else if e = bslash then some bslash
          else if e = '/' then some '/'
          else if e = 'b' then some (Char.ofNat 8)
          else if e = 'f' then some (Char.ofNat 12)
          else if e = 'n' then some (Char.ofNat 10)
          else if e = 'r' then some (Char.ofNat 13)
          else if e = 't' then some (Char.ofNat 9)
          else none
        match simpleEsc with
        | some ch =>
          match parseStringAux fuel rest2 with
          | some (s, rem) => some (String.mk (ch :: s.data), rem)
          | none => none
        | none =>
          if e = 'u' then
            match parse4Hex rest2 with
            | none => none
            | some (hi, rest3) =>
              if 0xd800 ≤ hi && hi ≤ 0xdbff then
                match rest3 with
                | u1 :: u2 :: rest4 =>
                  if u1 = bslash && u2 = 'u' then
                    match parse4Hex rest4 with
                    | some (lo, rest5) =>
                      if 0xdc00 ≤ lo && lo ≤ 0xdfff then
                        let code := 0x10000 + (hi - 0xd800) * 0x400 + (lo - 0xdc00)
                        match parseStringAux fuel rest5 with
                        | some (s, rem) => some (String.mk (Char.ofNat code :: s.data), rem)
                        | none => none
                      else
                        match parseStringAux fuel rest3 with
                        | some (s, rem) => some (String.mk (Char.ofNat 0 :: s.data), rem)
                        | none => none
                    | none =>
                      match parseStringAux fuel rest3 with
                      | some (s, rem) => some (String.mk (Char.ofNat 0 :: s.data), rem)
                      | none => none
                  else
                    match parseStringAux fuel rest3 with
                    | some (s, rem) => some (String.mk (Char.ofNat 0 :: s.data), rem)
                    | none => none
                | _ =>
                  match parseStringAux fuel rest3 with
                  | some (s, rem) => some (String.mk (Char.ofNat 0 :: s.data), rem)
                  | none => none
              else
                match parseStringAux fuel rest3 with
                | some (s, rem) => some (String.mk (Char.ofNat hi :: s.data), rem)
                | none => none
          else none
    else if c.val < 32 then none
    else
      match parseStringAux fuel rest with
      | some (s, rem) => some (String.mk (c :: s.data), rem)
      | none => none

/-- Parse the remainder of a JSON string literal (the opening quote already
consumed).  Strict mode: unescaped control characters are rejected.  Lone
surrogates from a `u`-escape fall back to the scalar value 0, a spot where the
embedding cannot mirror Python strings exactly. -/
def parseStringRest (cs : List Char) : Option (String × List Char) :=
  parseStringAux (cs.length + 1) cs

/-- Digit test. -/
def isDigit (c : Char) : Bool := '0' ≤ c && c ≤ '9'

/-- Take a maximal run of digits. -/
def takeDigits (cs : List Char) : List Char × List Char :=
  (cs.takeWhile isDigit, cs.dropWhile isDigit)

/-- Value of a digit run. -/
def digitsVal (ds : List Char) : Nat :=
  ds.foldl (fun acc c => acc * 10 + (c.toNat - 48)) 0

/-- Parse a JSON number following the decoder regex
`(-?(?:0|[1-9]did*))(\.did+)?([eE][-+]?did+)?` (did = digit): an integer
literal yields `Json.int`, a literal with fraction or exponent keeps its raw
lexeme as `Json.float`. -/
def parseNumber (cs : List Char) : Option (Json × List Char) :=
  let (neg, cs1) :=
    match cs with
    | c :: rest => if c = '-' then (true, rest) else (false, cs)
    | [] => (false, cs)
  match cs1 with
  | [] => none
  | d :: rest =>
    if ¬ isDigit d then none
    else
      let (intPart, cs2) :=
        if d = '0' then ([d], rest)
        else takeDigits (d :: rest)
      let (fracPart, cs3) :=
        match cs2 with
        | '.' :: f :: fr =>
          if isDigit f then
            let (ds, rem) := takeDigits (f :: fr)
            ('.' :: ds, rem)
          else ([], cs2)
        | _ => ([], cs2)
      let (expPart, cs4) :=
        match cs3 with
        | e :: er =>
          if e = 'e' || e = 'E' then
            match er with
            | s :: sr =>
              if s = '+' || s = '-' then
                match sr with
                | d2 :: _ =>
                  if isDigit d2 then
                    let (ds, rem) := takeDigits sr
                    (e :: s :: ds, rem)
                  else ([], cs3)
                | [] => ([], cs3)
              else if isDigit s then
                let (ds, rem) := takeDigits er
                (e :: ds, rem)
              else ([], cs3)
            | [] => ([], cs3)
          else ([], cs3)
        | [] => ([], cs3)
      if fracPart.isEmpty && expPart.isEmpty then
        let v : Int := Int.ofNat (digitsVal intPart)
        some (Json.int (if neg then -v else v), cs4)
      else
        let raw := String.mk ((if neg then ['-'] else []) ++ intPart ++ fracPart ++ expPart)
        some (Json.float raw, cs4)

mutual

/-- Parse one JSON value at the head of `cs` (leading whitespace already
skipped); returns the value and the unread remainder. -/
def parseVal : Nat → List Char → Option (Json × List Char)
  | 0, _ => none
  | Nat.succ fuel, cs =>
    match cs with
    | [] => none
    | c :: rest =>
      if c = lbrace then
        let body := skipWs rest
        match body with
        | d :: rest2 =>
          if d = rbrace then some (Json.obj [], rest2)
          else parseMembers fuel body []
        | [] => none
      else if c = '[' then
        let body := skipWs rest
        match body with
        | d :: rest2 =>
          if d = ']' then some (Json.arr [], rest2)
          else parseElems fuel body []
        | [] => none
      else if c = dquote then
        match parseStringRest rest with
        | some (s, rem) => some (Json.str s, rem)
        | none => none
      else if c = 't' then
        match rest with
        | 'r' :: 'u' :: 'e' :: rem => some (Json.bool true, rem)
        | _ => none
      else if c = 'f' then
        match rest with
        | 'a' :: 'l' :: 's' :: 'e' :: rem => some (Json.bool false, rem)
        | _ => none
      else if c = 'n' then
        match rest with
        | 'u' :: 'l' :: 'l' :: rem => some (Json.null, rem)
        | _ => none
      else if c = 'N' then
        match rest with
        | 'a' :: 'N' :: rem => some (Json.float "NaN", rem)
        | _ => none
      else if c = 'I' then
        match rest with
        | 'n' :: 'f' :: 'i' :: 'n' :: 'i' :: 't' :: 'y' :: rem =>
          some (Json.float "Infinity", rem)
        | _ => none
      else if c = '-' then
        match rest with
        | 'I' :: 'n' :: 'f' :: 'i' :: 'n' :: 'i' :: 't' :: 'y' :: rem =>
          some (Json.float "-Infinity", rem)
        | _ => parseNumber cs
      else if isDigit c then parseNumber cs
      else none

/-- Parse the members of a JSON object, positioned at the first key. -/
def parseMembers : Nat → List Char → List (String × Json) →
    Option (Json × List Char)
  | 0, _, _ => none
  | Nat.succ fuel, cs, acc =>
    match cs with
    | c :: rest =>
      if c = dquote then
        match parseStringRest rest with
        | none => none
        | some (k, rem1) =>
          match skipWs rem1 with
          | ':' :: rem2 =>
            match parseVal fuel (skipWs rem2) with
            | none => none
            | some (v, rem3) =>
              let acc2 := assocInsert acc k v
              match skipWs rem3 with
              | ',' :: rem4 => parseMembers fuel (skipWs rem4) acc2
              | d :: rem4 =>
                if d = rbrace then some (Json.obj acc2, rem4) else none
              | [] => none
          | _ => none
      else none
    | [] => none

/-- Parse the elements of a JSON array, positioned at the first element. -/
def parseElems : Nat → List Char → List Json → Option (Json × List Char)
  | 0, _, _ => none
  | Nat.succ fuel, cs, acc =>
    match parseVal fuel cs with
    | none => none
    | some (v, rem1) =>
      match skipWs rem1 with
      | ',' :: rem2 => parseElems fuel (skipWs rem2) (acc ++ [v])
      | ']' :: rem2 => some (Json.arr (acc ++ [v]), rem2)
      | _ => none

end

/-- Model of Python `json.loads`: parse one document, allowing leading and
trailing whitespace and rejecting any other trailing data. -/
def loads (s : String) : Option Json :=
  let cs := skipWs s.data
  match parseVal (2 * s.length + 16) cs with
  | some (v, rest) => if (skipWs rest).isEmpty then some v else none
  | none => none

/-! ### json.dumps -/

/-- Lowercase hex rendering of `n` padded to four digits. -/
def hex4 (n : Nat) : String :=
  let dig := fun (d : Nat) =>
    if d < 10 then Char.ofNat (48 + d) else Char.ofNat (87 + d)
  String.mk [dig (n / 4096 % 16), dig (n / 256 % 16), dig (n / 16 % 16), dig (n % 16)]

/-- Escape one character as `json.dumps` does with `ensure_ascii=True`. -/
def escChar (c : Char) : String :=
  if c = dquote then String.mk [bslash, dquote]
  else if c = bslash then String.mk [bslash, bslash]
  else if c = Char.ofNat 10 then String.mk [bslash, 'n']
  else if c = Char.ofNat 13 then String.mk [bslash, 'r']
  else if c = Char.ofNat 9 then String.mk [bslash, 't']
  else if c = Char.ofNat 8 then String.mk [bslash, 'b']
  else if c = Char.ofNat 12 then String.mk [bslash, 'f']
  else if 32 ≤ c.val && c.val ≤ 126 then String.mk [c]
  else if c.val ≤ 0xffff then String.mk [bslash, 'u'] ++ hex4 c.toNat
  else
    let v := c.toNat - 0x10000
    String.mk [bslash, 'u'] ++ hex4 (0xd800 + v / 0x400) ++
      String.mk [bslash, 'u'] ++ hex4 (0xdc00 + v % 0x400)

/-- Serialize a string literal as `json.dumps` does. -/
def dumpString (s : String) : String :=
  String.mk [dquote] ++ String.join (s.data.map escChar) ++ String.mk [dquote]

mutual

/-- Model of Python `json.dumps` with its default separators.  Float lexemes
are emitted verbatim, a simplification the verified claims never exercise. -/
def dumps : Json → String
  | Json.null => "null"
  | Json.bool true => "true"
  | Json.bool false => "false"
  | Json.int n => toString n
  | Json.float raw => raw
  | Json.str s => dumpString s
  | Json.arr xs => "[" ++ dumpsElems xs ++ "]"
  | Json.obj kvs => String.mk [lbrace] ++ dumpsMembers kvs ++ String.mk [rbrace]

/-- Comma-separated serialization of array elements. -/
def dumpsElems : List Json → String
  | [] => ""
  | [x] => dumps x
  | x :: y :: rest => dumps x ++ ", " ++ dumpsElems (y :: rest)

/-- Comma-separated serialization of object members. -/
def dumpsMembers : List (String × Json) → String
  | [] => ""
  | [(k, v)] => dumpString k ++ ": " ++ dumps v
  | (k, v) :: m :: rest => dumpString k ++ ": " ++ dumps v ++ ", " ++ dumpsMembers (m :: rest)

end

/-! ### Python str() and repr() of json values (used in f-string interpolation) -/

/-- Lowercase hex rendering of `n` padded to two digits. -/
def hex2 (n : Nat) : String :=
  let dig := fun (d : Nat) =>
    if d < 10 then Char.ofNat (48 + d) else Char.ofNat (87 + d)
  String.mk [dig (n / 16 % 16), dig (n % 16)]

/-- Escape one character for Python `repr` of a string with quote `q`.
Non-printable characters beyond the common controls are approximated. -/
def escPyChar (q c : Char) : String :=
  if c = bslash then String.mk [bslash, bslash]
  else if c = q then String.mk [bslash, q]
  else if c = Char.ofNat 10 then String.mk [bslash, 'n']
  else if c = Char.ofNat 13 then String.mk [bslash, 'r']
  else if c = Char.ofNat 9 then String.mk [bslash, 't']
  else if c.val < 32 || c.val = 127 then String.mk [bslash, 'x'] ++ hex2 c.toNat
  else String.mk [c]

/-- Python `repr` of a string: single quotes unless the string holds a single
quote and no double quote. -/
def reprPyStr (s : String) : String :=
  let q := if s.data.contains squote && ¬ s.data.contains dquote then dquote else squote
  String.mk [q] ++ String.join (s.data.map (escPyChar q)) ++ String.mk [q]

mutual

/-- Python `repr` of a loaded json value. -/
def pyRepr : Json → String
  | Json.null => "None"
  | Json.bool true => "True"
  | Json.bool false => "False"
  | Json.int n => toString n
  | Json.float raw => raw
  | Json.str s => reprPyStr s
  | Json.arr xs => "[" ++ pyReprElems xs ++ "]"
  | Json.obj kvs => String.mk [lbrace] ++ pyReprMembers kvs ++ String.mk [rbrace]

/-- Comma-separated repr of list elements. -/
def pyReprElems : List Json → String
  | [] => ""
  | [x] => pyRepr x
  | x :: y :: rest => pyRepr x ++ ", " ++ pyReprElems (y :: rest)

/-- Comma-separated repr of dict items. -/
def pyReprMembers : List (String × Json) → String
  | [] => ""
  | [(k, v)] => reprPyStr k ++ ": " ++ pyRepr v
  | (k, v) :: m :: rest => reprPyStr k ++ ": " ++ pyRepr v ++ ", " ++ pyReprMembers (m :: rest)

end

/-- Python `str` of a loaded json value, as an f-string interpolates it. -/
def pyStrJson : Json → String
  | Json.str s => s
  | j => pyRepr j

/-- Python truthiness of a loaded json value (float lexeme approximated). -/
def jsonTruthy : Json → Bool
  | Json.null => false
  | Json.bool b => b
  | Json.int n => n ≠ 0
  | Json.float raw => ¬ (raw = "0.0" || raw = "-0.0")
  | Json.str s => s ≠ ""
  | Json.arr xs => ¬ xs.isEmpty
  | Json.obj kvs => ¬ kvs.isEmpty

/-- Generic Python-dict insertion for string-keyed association lists. -/
def dictInsert {α : Type} (kvs : List (String × α)) (k : String) (v : α) :
    List (String × α) :=
  match kvs with
  | [] => [(k, v)]
  | (k0, v0) :: rest =>
    if k0 = k then (k0, v) :: rest else (k0, v0) :: dictInsert rest k v

/-- Generic lookup for string-keyed association lists. -/
def dictGet {α : Type} (kvs : List (String × α)) (k : String) : Option α :=
  (kvs.find? (fun p => p.1 = k)).map (·.2)

/-- Python `.get` on a json object, with default; the tool-catalog entries the
source feeds through here are always dicts. -/
def jsonGetD (j : Json) (k : String) (d : Json) : Json :=
  match j with
  | Json.obj kvs => (assocGet kvs k).getD d
  | _ => d

/-- Does `pat` occur at the head of the list? -/
def headMatches : List Char → List Char → Bool
  | [], _ => true
  | _ :: _, [] => false
  | p :: ps, c :: cs => p = c && headMatches ps cs

/-- Does `pat` occur contiguously anywhere in the list? -/
def occursIn (pat : List Char) : List Char → Bool
  | [] => headMatches pat []
  | c :: cs => headMatches pat (c :: cs) || occursIn pat cs

/-- Substring test, Python `needle in hay`. -/
def strContains (needle hay : String) : Bool :=
  occursIn needle.data hay.data

/-- Suffix test, Python `s.endswith(suf)`. -/
def strEndsWith (s suf : String) : Bool :=
  headMatches suf.data.reverse s.data.reverse

/-- The last `n` entries of a list, Python `l[-n:]` for positive `n`
(the source guards with `if len(messages) > window else messages`). -/
def lastN {α : Type} (n : Nat) (l : List α) : List α :=
  if l.length > n then l.drop (l.length - n) else l

/-! ### Tool-call requests and the call-request parser
(`_parse_tool_calls_from_content`, src/poly_completion.py lines 80-129) -/

/-- The `function` payload of an emitted tool call: the raw `name` value taken
from the parsed line and the arguments re-serialized to a JSON string
(`json.dumps(args)` in the source). -/
structure FunctionCall where
  name : Json
  arguments : String

/-- One emitted tool-call request. -/
structure ToolCall where
  id : String
  type : String
  function : FunctionCall

/-- Does the trimmed line start with a left brace? -/
def startsLbrace (s : String) : Bool :=
  match s.data with
  | c :: _ => c = lbrace
  | [] => false

/-- Does the trimmed line end with a right brace? -/
def endsRbrace (s : String) : Bool :=
  match s.data.getLast? with
  | some c => c = rbrace
  | none => false

/-- Argument normalization of the source (lines 99-110): absent `arguments`
becomes an empty mapping; a string value is decoded once more, any failure or
non-dict decode result becoming an empty mapping; other values pass through. -/
def normalizeArgs (parsed : Json) : Json :=
  match parsed with
  | Json.obj kvs =>
    match assocGet kvs "arguments" with
    | none => Json.obj []
    | some a =>
      match a with
      | Json.str s =>
        match loads s with
        | some (Json.obj kvs2) => Json.obj kvs2
        | some _ => Json.obj []
        | none => Json.obj []
      | _ => a
  | _ => Json.obj []

/-- The per-line loop of `_parse_tool_calls_from_content`: `k` counts the
accepted calls so far and indexes the uuid supply `fresh`. -/
def parseToolCallsLoop (fresh : Nat → String) : List String → Nat → List ToolCall
  | [], _ => []
  | line :: rest, k =>
    if startsLbrace (pyStrip line) && endsRbrace (pyStrip line) then
      match loads (pyStrip line) with
      | some (Json.obj kvs) =>
        if assocHas kvs "name" then
          { id := "call_" ++ fresh k
            type := "function"
            function :=
              { name := (assocGet kvs "name").getD Json.null
                arguments := dumps (normalizeArgs (Json.obj kvs)) } } ::
            parseToolCallsLoop fresh rest (k + 1)
        else parseToolCallsLoop fresh rest k
      | _ => parseToolCallsLoop fresh rest k
    else parseToolCallsLoop fresh rest k

/-- Model of `_parse_tool_calls_from_content`: strip think spans, split into
lines, accept each trimmed brace-delimited line that decodes to an object with
a `name` key.  `fresh` supplies the uuid of each accepted call in order. -/
def parse_tool_calls_from_content (content : Option String) (fresh : Nat → String) :
    List ToolCall :=
  match content with
  | none => []
  | some s =>
    if s = "" then []
    else parseToolCallsLoop fresh (pySplitlines (pyStrip (removeThink s))) 0

/-! ### Transcript messages and the history sanitizer
(`_sanitize_messages` and helpers, src/poly_completion.py lines 131-324) -/

/-- A tool call recorded inside a transcript assistant message.  Per the data
model of the spec the recorded tool name is a string; `arguments` is the JSON
string the call carried. -/
structure MsgToolCall where
  id : String
  name : String
  arguments : String
deriving DecidableEq

/-- A transcript message.  `content = none` models an absent content key (the
spec's data model has content "text or absent"); `tool_calls = []` models an
absent or empty `tool_calls` key, the two being indistinguishable to the
source's truthiness tests. -/
structure Message where
  role : String
  content : Option String
  tool_calls : List MsgToolCall
  tool_call_id : Option String
deriving DecidableEq

/-- Model of `_has_recent_tool_calls`: any assistant message with tool calls,
or any tool-role message, within the last `window` messages. -/
def has_recent_tool_calls (messages : List Message) (window : Nat) : Bool :=
  (lastN window messages).any
    (fun m => (m.role = "assistant" && ¬ m.tool_calls.isEmpty) || m.role = "tool")

/-- A recorded tool result: the decoded json when the tool message content
parses, otherwise the raw string. -/
inductive ToolContent where
  | parsed (j : Json) : ToolContent
  | raw (s : String) : ToolContent

/-- Serialization of a tool result as `json.dumps(tool_result, default=str)`:
the `default` hook is never reached because both variants are serializable. -/
def dumpsToolContent : ToolContent → String
  | ToolContent.parsed j => dumps j
  | ToolContent.raw s => dumpString s

/-- First pass of `_find_tool_responses`: index every recorded tool call id to
its tool name (the stored message index of the source is never read). -/
def toolCallsById (messages : List Message) : List (String × String) :=
  messages.foldl
    (fun acc m =>
      if m.role = "assistant" && ¬ m.tool_calls.isEmpty then
        m.tool_calls.foldl (fun a tc => dictInsert a tc.id tc.name) acc
      else acc)
    []

/-- Model of `_find_tool_responses`: map each answered tool call id to the
calling name and the (decoded when possible) content of the answering
tool-role message. -/
def find_tool_responses (messages : List Message) :
    List (String × (String × ToolContent)) :=
  let byId := toolCallsById messages
  messages.foldl
    (fun acc m =>
      if m.role = "tool" then
        match m.tool_call_id, m.content with
        | some tid, some c =>
          match dictGet byId tid with
          | some name =>
            let tcont :=
              match loads c with
              | some j => ToolContent.parsed j
              | none => ToolContent.raw c
            dictInsert acc tid (name, tcont)
          | none => acc
        | _, _ => acc
      else acc)
    []

/-- Model of `_find_recent_tool_calls` with its default lookback of 10:
collect name and decoded arguments of every assistant tool call in the last
10 messages (a failed decode leaves the empty mapping). -/
def find_recent_tool_calls (messages : List Message) : List (String × Json) :=
  (lastN 10 messages).foldl
    (fun acc m =>
      if m.role = "assistant" && ¬ m.tool_calls.isEmpty then
        acc ++ m.tool_calls.map
          (fun tc => (tc.name, (loads tc.arguments).getD (Json.obj [])))
      else acc)
    []

/-- The neutral placeholder content of the source. -/
def placeholder : String := "I need to look up some information for you."

/-- One inlined tool-result line. -/
def resultLine (name : String) (tc : ToolContent) : String :=
  "Tool \x27" ++ name ++ "\x27 returned: " ++ dumpsToolContent tc

/-- The `tool_results_text` list of the sanitizer loop (source lines 278-287):
one serialized line per tool call of `m` whose id has a recorded response. -/
def answeredLines (responses : List (String × (String × ToolContent)))
    (m : Message) : List String :=
  m.tool_calls.filterMap
    (fun tc => (dictGet responses tc.id).map (fun p => resultLine p.1 p.2))

/-- Per-message step of the sanitizer loop.  The source's `skip_indices` set
only ever receives the index currently being processed, so the loop is a
filter-map over the messages. -/
def sanitizeMsg (responses : List (String × (String × ToolContent)))
    (m : Message) : Option Message :=
  if m.role = "tool" then none
  else if m.role = "assistant" then
    if m.tool_calls.isEmpty then some ⟨"assistant", some (m.content.getD ""), [], none⟩
    else
      if (answeredLines responses m).isEmpty then
        some ⟨"assistant", some (m.content.getD ""), [], none⟩
      else if (answeredLines responses m).any
          (fun l => strContains l (m.content.getD "")) then
        some ⟨"assistant", some (m.content.getD ""), [], none⟩
      else
        some ⟨"assistant",
          some ((if m.content.getD "" ≠ "" then
              (if strEndsWith (m.content.getD "") "\n\n" then m.content.getD ""
               else m.content.getD "" ++ "\n\n")
            else placeholder ++ "\n\n") ++
            String.intercalate "\n" (answeredLines responses m)), [], none⟩
  else some ⟨m.role, m.content, [], none⟩

/-- First-occurrence deduplication worker. -/
def dedupAux : List String → List String → List String
  | [], _ => []
  | x :: xs, seen =>
    if seen.contains x then dedupAux xs seen else x :: dedupAux xs (x :: seen)

/-- Model of `list(set(tool_names))`: the set of names as a list.  Python's
set iteration order is unspecified; first occurrence order is chosen. -/
def dedupFirst (l : List String) : List String := dedupAux l []

/-- The appended repetition-avoidance reminder content. -/
def reminderText (names : List String) : String :=
  "Note: You\x27ve recently used tools: " ++ String.intercalate ", " names ++
    ". Please use the information already gathered when possible instead of calling the same tools again with the same parameters."

/-- The rewritten transcript before reminder handling: the sanitizer loop
applied to every message. -/
def coreOf (messages : List Message) : List Message :=
  messages.filterMap (sanitizeMsg (find_tool_responses messages))

/-- The marker test of the source: is the final rewritten message already a
repetition-avoidance reminder? -/
def lastIsReminder (core : List Message) : Bool :=
  match core.getLast? with
  | some m => m.role = "user" && strContains "recently used tools" (m.content.getD "")
  | none => false

/-- The reminder message appended for a given original transcript. -/
def reminderMsgOf (messages : List Message) : Message :=
  ⟨"user",
    some (reminderText (dedupFirst ((find_recent_tool_calls messages).map (·.1)))),
    [], none⟩

/-- Model of `_sanitize_messages`. -/
def sanitize_messages (messages : List Message) (add_tool_reminder : Bool) :
    List Message :=
  if add_tool_reminder && ¬ (find_recent_tool_calls messages).isEmpty then
    if lastIsReminder (coreOf messages) then coreOf messages
    else coreOf messages ++ [reminderMsgOf messages]
  else coreOf messages

/-! ### Prompt injection (`_format_tools_for_prompt`, `_generate_tool_prompt`) -/

/-- Python `tool.get("type") == "function"`: equality holds exactly when the
value is that string. -/
def isStrValue (j : Json) (s : String) : Bool :=
  match j with
  | Json.str t => t = s
  | _ => false

/-- Model of `_format_tools_for_prompt`. -/
def format_tools_for_prompt (tools : List Json) : String :=
  if tools.isEmpty then "No tools available."
  else
    let formatted := tools.filterMap (fun tool =>
      if isStrValue (jsonGetD tool "type" Json.null) "function" then
        let fs := jsonGetD tool "function" (Json.obj [])
        let name := jsonGetD fs "name" (Json.str "Unnamed function")
        let desc := jsonGetD fs "description" (Json.str "No description.")
        let params := jsonGetD fs "parameters" (Json.obj [])
        let props := jsonGetD params "properties" Json.null
        let paramDesc :=
          if jsonTruthy params && jsonTruthy props then
            let paramList :=
              match props with
              | Json.obj kvs =>
                kvs.map (fun p =>
                  p.1 ++ " (" ++ pyStrJson (jsonGetD p.2 "type" (Json.str "any")) ++ ")")
              | _ => []
            let base := "Parameters: " ++ String.intercalate ", " paramList
            let required := jsonGetD params "required" Json.null
            if jsonTruthy required then
              let reqList :=
                match required with
                | Json.arr xs => xs.map pyStrJson
                | _ => []
              base ++ " (Required: " ++ String.intercalate ", " reqList ++ ")"
            else base
          else "Parameters: None"
        some ("- Function: " ++ pyStrJson name ++ "\n  Description: " ++
          pyStrJson desc ++ "\n  " ++ paramDesc)
      else none)
    "Available Tools:\n" ++ String.intercalate "\n" formatted

/-- The fixed prompt text preceding the tool description. -/
def promptPart1 : String := "\nYou have access to the following tools:\n"

/-- The fixed instruction block following the tool description (the template
of `_generate_tool_prompt` with its doubled braces unescaped). -/
def promptPart2 : String :=
  "\n\nIf you need to use a tool to answer the user\x27s request, follow these instructions *exactly*:\n" ++
  "1.  First, think step-by-step about whether you need to call a tool. You can use <think>...</think> blocks for your reasoning. These blocks will be ignored.\n" ++
  "2.  If you decide to call one or more tools, output *each* function call as a standard JSON object on its own line. The JSON object *must* have a \"name\" key and an \"arguments\" key (if arguments are needed).\n" ++
  "    Example with arguments:\n" ++
  "    \x7b\"name\": \"tool_name\", \"arguments\": \x7b\"arg1\": \"value1\", \"arg2\": \"value2\"\x7d\x7d\n" ++
  "    Example without arguments:\n" ++
  "    \x7b\"name\": \"tool_name\"\x7d\n" ++
  "3.  DO NOT wrap your tool calls in code blocks with triple backticks. Just output the raw JSON objects.\n" ++
  "4.  Do *not* include any other text, explanations, or narrative outside the JSON lines if you are making tool calls.\n" ++
  "5.  If you do not need to use a tool, respond to the user naturally without outputting any JSON tool calls.\n"

/-- The extra block appended when there has been recent tool usage. -/
def promptRecent : String :=
  "\nIMPORTANT: I notice you\x27ve already used tools recently in this conversation. Before calling another tool:\n" ++
  "- Check if you already have the information you need from previous tool calls\n" ++
  "- Only call a tool if you need NEW information that wasn\x27t provided by previous tool calls\n" ++
  "- If you have sufficient information, please respond directly to the user without making additional tool calls\n"

/-- Model of `_generate_tool_prompt`. -/
def generate_tool_prompt (tools : List Json) (recent_tool_usage : Bool) : String :=
  pyStrip (promptPart1 ++ format_tools_for_prompt tools ++ promptPart2 ++
    (if recent_tool_usage then promptRecent else ""))

/-! ### The completion gateway and response assembler
(`completion`, src/poly_completion.py lines 328-453) -/

/-- Usage metadata, passed through unchanged by the layer. -/
structure Usage where
  prompt_tokens : Nat
  completion_tokens : Nat
  total_tokens : Nat
deriving DecidableEq

/-- A provider response message. -/
structure RespMessage where
  content : Option String
  role : String
  tool_calls : Option (List ToolCall)

/-- One provider response choice. -/
structure Choice where
  finish_reason : Option String
  index : Nat
  message : RespMessage

/-- A provider response (`litellm.ModelResponse`); private underscore
attributes are carried as plain fields, `hidden_params = none` standing for an
absent attribute. -/
structure ModelResponse where
  id : String
  choices : List Choice
  created : Nat
  model : String
  object : String
  system_fingerprint : Option String
  usage : Usage
  response_ms : Nat
  hidden_params : Option String

/-- The keyword arguments of a completion call that the layer inspects or
rewrites; everything else passes through inside the provider oracle. -/
structure Params where
  model : Option String
  messages : List Message
  tools : Option (List Json)
  tool_choice : Option String

/-- Python truthiness of the optional model string. -/
def truthyModel : Option String → Bool
  | none => false
  | some s => s ≠ ""

/-- Python truthiness of the optional tools list. -/
def truthyTools : Option (List Json) → Bool
  | none => false
  | some l => ¬ l.isEmpty

/-- The response-assembly suffix of `completion` (lines 405-448): wrap parsed
calls into a fresh single-choice response, or return the raw response with an
inconsistent `tool_calls` finish reason downgraded to `stop`. -/
def assembleResponse (response : ModelResponse) (parsed : List ToolCall) :
    ModelResponse :=
  if parsed.isEmpty then
    match response.choices with
    | c :: rest =>
      if c.finish_reason = some "tool_calls" then
        { response with choices := { c with finish_reason := some "stop" } :: rest }
      else response
    | [] => response
  else
    let origChoice :=
      match response.choices with
      | c :: _ => c
      | [] => ⟨some "stop", 0, ⟨none, "assistant", none⟩⟩
    let newMessage : RespMessage := ⟨none, origChoice.message.role, some parsed⟩
    let newChoice : Choice := ⟨some "tool_calls", origChoice.index, newMessage⟩
    { id := response.id
      choices := [newChoice]
      created := response.created
      model := response.model
      object := "chat.completion"
      system_fingerprint := response.system_fingerprint
      usage := response.usage
      response_ms := response.response_ms
      hidden_params := response.hidden_params }

/-- Model of `completion`: the provider oracle stands for `litellm.completion`
and `supports` for `litellm.supports_function_calling`; `fresh` supplies the
uuids of parsed calls. -/
def completion (supports : String → Bool) (provider : Params → ModelResponse)
    (fresh : Nat → String) (p : Params) : ModelResponse :=
  if ¬ truthyModel p.model || p.messages.isEmpty then provider p
  else if supports (p.model.getD "") && truthyTools p.tools then provider p
  else if truthyTools p.tools then
    let hasRecent := has_recent_tool_calls p.messages 4
    let sanitized := sanitize_messages p.messages hasRecent
    let toolPrompt := generate_tool_prompt (p.tools.getD []) hasRecent
    let modified := sanitized ++ [⟨"user", some toolPrompt, [], none⟩]
    let response := provider { p with messages := modified, tools := none, tool_choice := none }
    let responseContent :=
      match response.choices with
      | c :: _ => c.message.content
      | [] => none
    let parsedCalls := parse_tool_calls_from_content responseContent fresh
    assembleResponse response parsedCalls
  else provider p

/-! ## Claim-level characterizations of the call-request parser -/

/-- The qualification test of a single line, as the spec states it: the
trimmed line is brace-delimited, decodes to an object with a `name` key, and
then contributes its name value and normalized arguments. -/
def claimLineCall (line : String) : Option (Json × Json) :=
  if startsLbrace (pyStrip line) && endsRbrace (pyStrip line) then
    match loads (pyStrip line) with
    | some (Json.obj kvs) =>
      if assocHas kvs "name" then
        some ((assocGet kvs "name").getD Json.null, normalizeArgs (Json.obj kvs))
      else none
    | _ => none
  else none

/-- Sequential identifier assignment: the `i`-th accepted call receives id
`"call_" ++ fresh i`, independent of the content of its line. -/
def assignIds (fresh : Nat → String) : Nat → List (Json × Json) → List ToolCall
  | _, [] => []
  | k, (n, a) :: rest =>
    ⟨"call_" ++ fresh k, "function", ⟨n, dumps a⟩⟩ :: assignIds fresh (k + 1) rest

theorem parseLoop_eq (fresh : Nat → String) :
    ∀ (lines : List String) (k : Nat),
      parseToolCallsLoop fresh lines k = assignIds fresh k (lines.filterMap claimLineCall)
  | [], _ => rfl
  | line :: rest, k => by
    have ih := parseLoop_eq fresh rest
    rw [List.filterMap_cons]
    cases h1 : startsLbrace (pyStrip line) && endsRbrace (pyStrip line) with
    | false => simp [parseToolCallsLoop, claimLineCall, h1, ih k]
    | true =>
      cases hL : loads (pyStrip line) with
      | none => simp [parseToolCallsLoop, claimLineCall, h1, hL, ih k]
      | some j =>
        cases j with
        | obj kvs =>
          cases h2 : assocHas kvs "name" with
          | false => simp [parseToolCallsLoop, claimLineCall, h1, hL, h2, ih k]
          | true =>
            simp [parseToolCallsLoop, claimLineCall, h1, hL, h2, assignIds, ih (k + 1)]
        | null => simp [parseToolCallsLoop, claimLineCall, h1, hL, ih k]
        | bool b => simp [parseToolCallsLoop, claimLineCall, h1, hL, ih k]
        | int n => simp [parseToolCallsLoop, claimLineCall, h1, hL, ih k]
        | float raw => simp [parseToolCallsLoop, claimLineCall, h1, hL, ih k]
        | str s => simp [parseToolCallsLoop, claimLineCall, h1, hL, ih k]
        | arr xs => simp [parseToolCallsLoop, claimLineCall, h1, hL, ih k]

theorem parse_eq_assignIds (content : String) (fresh : Nat → String) :
    parse_tool_calls_from_content (some content) fresh =
      assignIds fresh 0 ((pySplitlines (pyStrip (removeThink content))).filterMap claimLineCall) := by
  by_cases h : content = ""
  · subst h; rfl
  · simp [parse_tool_calls_from_content, h, parseLoop_eq]

theorem assignIds_length (fresh : Nat → String) :
    ∀ (k : Nat) (l : List (Json × Json)), (assignIds fresh k l).length = l.length
  | _, [] => rfl
  | k, (n, a) :: rest => by simp [assignIds, assignIds_length fresh (k + 1) rest]

theorem assignIds_map_id (fresh : Nat → String) :
    ∀ (k : Nat) (l : List (Json × Json)),
      (assignIds fresh k l).map (fun c => c.id) =
        (List.range l.length).map (fun i => "call_" ++ fresh (k + i))
  | _, [] => rfl
  | k, (n, a) :: rest => by
    have ih := assignIds_map_id fresh (k + 1) rest
    have hshift : ∀ i : Nat, k + 1 + i = k + (i + 1) := fun i => by omega
    simp [assignIds, ih, List.range_succ_eq_map, List.map_map, Function.comp, hshift]

theorem string_data_injective : ∀ {x y : String}, x.data = y.data → x = y := by
  intro x y h
  cases x
  cases y
  exact congrArg String.mk h

theorem callId_injective (fresh : Nat → String) (h : Function.Injective fresh) :
    Function.Injective (fun i => "call_" ++ fresh i) := by
  intro a b hab
  apply h
  apply string_data_injective
  have hd := congrArg String.data hab
  exact List.append_cancel_left hd

/-- The scenario text of claim C1. -/
def c1text : String :=
  "<think>ok</think>\n\x7b\"name\": \"list_goals\", \"arguments\": \x7b\"state\": \"active\"\x7d\x7d\n"

/-- C1.  Parser characterization: the parser removes think spans, splits the
stripped remainder into lines, and emits exactly one call per qualifying line
(trimmed brace-delimited line decoding to an object with a `name` key),
carrying that object's name value and its (serialized) arguments mapping —
the empty mapping when the `arguments` key is absent; and the concrete
scenario input yields exactly one `list_goals` call with arguments
`\x7b"state": "active"\x7d`. -/
theorem parser_characterization :
    (∀ (content : String) (fresh : Nat → String),
        parse_tool_calls_from_content (some content) fresh =
          assignIds fresh 0
            ((pySplitlines (pyStrip (removeThink content))).filterMap claimLineCall))
    ∧ (∀ kvs, assocGet kvs "arguments" = none → normalizeArgs (Json.obj kvs) = Json.obj [])
    ∧ (∀ kvs m, assocGet kvs "arguments" = some (Json.obj m) →
        normalizeArgs (Json.obj kvs) = Json.obj m)
    ∧ (∀ fresh : Nat → String,
        parse_tool_calls_from_content (some c1text) fresh =
          [⟨"call_" ++ fresh 0, "function",
            ⟨Json.str "list_goals", "\x7b\"state\": \"active\"\x7d"⟩⟩]) := by
  refine ⟨parse_eq_assignIds, ?_, ?_, ?_⟩
  · intro kvs h
    simp [normalizeArgs, h]
  · intro kvs m h
    simp [normalizeArgs, h]
  · intro fresh
    rfl

theorem parser_characterization_witness :
    normalizeArgs (Json.obj [("name", Json.str "x")]) = Json.obj []
    ∧ normalizeArgs (Json.obj [("name", Json.str "x"),
        ("arguments", Json.obj [("a", Json.int 1)])]) = Json.obj [("a", Json.int 1)] :=
  ⟨parser_characterization.2.1 _ rfl, parser_characterization.2.2.1 _ _ rfl⟩

/-- The scenario text of claim C2: a think span, two well-formed call lines
and one malformed brace-delimited line. -/
def c2text : String :=
  "<think>\nreasoning\n</think>\nSome text\n\x7b\"name\": \"a\"\x7d\n\x7bbroken\x7d\n\x7b\"name\": \"b\", \"arguments\": \x7b\"x\": 1\x7d\x7d"

/-- C2.  Parser tolerance: a transcript with no qualifying line yields the
empty list; a candidate line that fails to qualify is skipped while every
remaining line is still processed; and the scenario text with a think span,
two well-formed call lines and one malformed brace line yields exactly two
calls.  The model is a total function, so no input can raise. -/
theorem parser_tolerance :
    (∀ (content : String) (fresh : Nat → String),
        (pySplitlines (pyStrip (removeThink content))).filterMap claimLineCall = [] →
        parse_tool_calls_from_content (some content) fresh = [])
    ∧ (∀ (fresh : Nat → String) (k : Nat) (pre post : List String) (bad : String),
        claimLineCall bad = none →
        parseToolCallsLoop fresh (pre ++ bad :: post) k =
          parseToolCallsLoop fresh (pre ++ post) k)
    ∧ (∀ fresh : Nat → String,
        (parse_tool_calls_from_content (some c2text) fresh).length = 2) := by
  refine ⟨?_, ?_, ?_⟩
  · intro content fresh h
    rw [parse_eq_assignIds, h]
    rfl
  · intro fresh k pre post bad h
    rw [parseLoop_eq, parseLoop_eq, List.filterMap_append, List.filterMap_append,
      List.filterMap_cons, h]
  · intro fresh
    rfl

theorem parser_tolerance_witness :
    parse_tool_calls_from_content (some "just words") (fun n => toString n) = []
    ∧ parseToolCallsLoop (fun n => toString n) (["\x7b\"name\": \"a\"\x7d"] ++ "\x7bbroken\x7d" :: []) 0 =
        parseToolCallsLoop (fun n => toString n) (["\x7b\"name\": \"a\"\x7d"] ++ ([] : List String)) 0 :=
  ⟨parser_tolerance.1 "just words" _ rfl, parser_tolerance.2.1 _ 0 _ [] _ rfl⟩

/-- The scenario text of claim C8: two syntactically identical call lines. -/
def c8text : String := "\x7b\"name\": \"dup\"\x7d\n\x7b\"name\": \"dup\"\x7d"

/-- C8.  Identifier freshness: the ids of the emitted calls are exactly
`"call_" ++ fresh i` for successive `i`, hence determined by position alone
and never by line content; under an injective uuid supply they are pairwise
distinct, and two identical call lines receive two distinct identifiers. -/
theorem identifier_freshness :
    (∀ (content : String) (fresh : Nat → String),
        (parse_tool_calls_from_content (some content) fresh).map (fun c => c.id) =
          (List.range (parse_tool_calls_from_content (some content) fresh).length).map
            (fun i => "call_" ++ fresh i))
    ∧ (∀ fresh : Nat → String, Function.Injective fresh →
        ∀ content : String,
          ((parse_tool_calls_from_content (some content) fresh).map (fun c => c.id)).Nodup)
    ∧ (∀ fresh : Nat → String,
        (parse_tool_calls_from_content (some c8text) fresh).map (fun c => c.id) =
          ["call_" ++ fresh 0, "call_" ++ fresh 1])
    ∧ (∀ fresh : Nat → String, Function.Injective fresh →
        "call_" ++ fresh 0 ≠ "call_" ++ fresh 1) := by
  have key : ∀ (content : String) (fresh : Nat → String),
      (parse_tool_calls_from_content (some content) fresh).map (fun c => c.id) =
        (List.range (parse_tool_calls_from_content (some content) fresh).length).map
          (fun i => "call_" ++ fresh i) := by
    intro content fresh
    rw [parse_eq_assignIds, assignIds_map_id, assignIds_length]
    simp
  refine ⟨key, ?_, ?_, ?_⟩
  · intro fresh hinj content
    rw [key]
    exact (List.nodup_range _).map (callId_injective fresh hinj)
  · intro fresh
    rfl
  · intro fresh hinj heq
    have h01 : (0 : Nat) = 1 := callId_injective fresh hinj heq
    exact absurd h01 (by decide)

/-- A concrete injective uuid supply for the witness. -/
def freshW (n : Nat) : String := String.mk (List.replicate n 'a')

theorem identifier_freshness_witness :
    ((parse_tool_calls_from_content (some c8text) freshW).map (fun c => c.id)).Nodup
    ∧ "call_" ++ freshW 0 ≠ "call_" ++ freshW 1 := by
  have hinj : Function.Injective freshW := by
    intro a b h
    have := congrArg (fun s => s.data.length) h
    simpa [freshW] using this
  exact ⟨identifier_freshness.2.1 freshW hinj c8text,
    identifier_freshness.2.2.2 freshW hinj⟩

/-! ## Claim-level characterizations of the history sanitizer -/

/-- The content the sanitizer gives a rewritten assistant message, stated as
one formula: the original text (or the placeholder when it is empty) followed
by the inlined result lines of the answered calls — except that a message with
no answered call, or whose text already contains one of those lines, keeps its
original text. -/
def claimAssistantContent (responses : List (String × (String × ToolContent)))
    (m : Message) : String :=
  if (answeredLines responses m).isEmpty then m.content.getD ""
  else if (answeredLines responses m).any
      (fun l => strContains l (m.content.getD "")) then m.content.getD ""
  else
    (if m.content.getD "" ≠ "" then
        (if strEndsWith (m.content.getD "") "\n\n" then m.content.getD ""
         else m.content.getD "" ++ "\n\n")
      else placeholder ++ "\n\n") ++
      String.intercalate "\n" (answeredLines responses m)

theorem sanitizeMsg_assistant (responses : List (String × (String × ToolContent)))
    (m : Message) (h : m.role = "assistant") :
    sanitizeMsg responses m =
      some ⟨"assistant", some (claimAssistantContent responses m), [], none⟩ := by
  unfold sanitizeMsg claimAssistantContent
  rw [h]
  by_cases htc : m.tool_calls.isEmpty
  · have hempty : answeredLines responses m = [] := by
      simp [answeredLines, List.isEmpty_iff.mp htc]
    simp [htc, hempty]
  · by_cases hl : (answeredLines responses m).isEmpty
    · simp [htc, hl]
    · by_cases ha : (answeredLines responses m).any
          (fun l => strContains l (m.content.getD ""))
      · simp [htc, hl, ha]
      · simp [htc, hl, ha]

theorem sanitizeMsg_role (responses : List (String × (String × ToolContent)))
    (m m' : Message) (h : sanitizeMsg responses m = some m') : m'.role ≠ "tool" := by
  by_cases h1 : m.role = "tool"
  · simp [sanitizeMsg, h1] at h
  · by_cases h2 : m.role = "assistant"
    · rw [sanitizeMsg_assistant responses m h2] at h
      rw [← Option.some.inj h]
      show ("assistant" : String) ≠ "tool"
      decide
    · have hv : sanitizeMsg responses m = some ⟨m.role, m.content, [], none⟩ := by
        simp [sanitizeMsg, h1, h2]
      rw [hv] at h
      rw [← Option.some.inj h]
      exact h1

theorem mem_coreOf_role (messages : List Message) (m : Message)
    (hm : m ∈ coreOf messages) : m.role ≠ "tool" := by
  obtain ⟨a, _, ha⟩ := List.mem_filterMap.mp hm
  exact sanitizeMsg_role _ a m ha

/-- The scenario transcript of claim C3. -/
def c3scen : List Message :=
  [⟨"assistant", none, [⟨"id1", "get_task", "\x7b\x7d"⟩], none⟩,
   ⟨"tool", some "\x7b\"name\": \"t1\"\x7d", [], some "id1"⟩]

/-- C3 (amended).  The sanitized output has no tool-role message; every
assistant message is rewritten to carry `claimAssistantContent` — its original
text (or the placeholder when empty) followed by one `Tool <name> returned:`
line per answered call, calls without an answering tool message being omitted,
except that the text is kept unchanged when it already contains one of those
lines; and the concrete scenario produces one assistant message whose content
contains the `Tool get_task returned:` marker and no tool-role message. -/
theorem sanitizer_rewrite :
    (∀ (messages : List Message) (add : Bool) (m : Message),
        m ∈ sanitize_messages messages add → m.role ≠ "tool")
    ∧ (∀ (responses : List (String × (String × ToolContent))) (m : Message),
        m.role = "assistant" →
        sanitizeMsg responses m =
          some ⟨"assistant", some (claimAssistantContent responses m), [], none⟩)
    ∧ (sanitize_messages c3scen false =
        [⟨"assistant",
          some ("I need to look up some information for you.\n\nTool \x27get_task\x27 returned: \x7b\"name\": \"t1\"\x7d"),
          [], none⟩]
       ∧ strContains "Tool \x27get_task\x27 returned:"
          "I need to look up some information for you.\n\nTool \x27get_task\x27 returned: \x7b\"name\": \"t1\"\x7d" = true) := by
  refine ⟨?_, sanitizeMsg_assistant, by constructor <;> rfl⟩
  intro messages add m hm
  unfold sanitize_messages at hm
  split at hm
  · split at hm
    · exact mem_coreOf_role messages m hm
    · rcases List.mem_append.mp hm with hc | hr
      · exact mem_coreOf_role messages m hc
      · rw [List.mem_singleton.mp hr]
        show ("user" : String) ≠ "tool"
        decide
  · exact mem_coreOf_role messages m hm

theorem sanitizer_rewrite_witness :
    sanitizeMsg [] ⟨"assistant", some "hi", [], none⟩ =
      some ⟨"assistant", some "hi", [], none⟩
    ∧ (⟨"user", some "q", [], none⟩ : Message).role ≠ "tool" :=
  ⟨sanitizer_rewrite.2.1 [] ⟨"assistant", some "hi", [], none⟩ rfl,
   sanitizer_rewrite.1 [⟨"user", some "q", [], none⟩] false _ (by decide)⟩

/-- The result line the answered `get_task` call of the counterexample
produces. -/
def c3cexLine : String := "Tool \x27get_task\x27 returned: \x7b\"name\": \"t1\"\x7d"

/-- The original assistant text of the counterexample: it already contains the
result line, with trailing text after it. -/
def c3cexText : String := c3cexLine ++ " and more."

/-- The counterexample transcript: one assistant message whose text already
contains the result line of its single answered call. -/
def c3cexMsgs : List Message :=
  [⟨"assistant", some c3cexText, [⟨"id1", "get_task", "\x7b\x7d"⟩], none⟩,
   ⟨"tool", some "\x7b\"name\": \"t1\"\x7d", [], some "id1"⟩]

/-- The per-message contribution to `find_recent_tool_calls`. -/
def recentContribution (m : Message) : List (String × Json) :=
  if m.role = "assistant" && ¬ m.tool_calls.isEmpty then
    m.tool_calls.map (fun tc => (tc.name, (loads tc.arguments).getD (Json.obj [])))
  else []

theorem frc_eq_flatten (messages : List Message) :
    find_recent_tool_calls messages =
      ((lastN 10 messages).map recentContribution).flatten := by
  have key : ∀ (l : List Message) (acc : List (String × Json)),
      l.foldl
        (fun acc m =>
          if m.role = "assistant" && ¬ m.tool_calls.isEmpty then
            acc ++ m.tool_calls.map
              (fun tc => (tc.name, (loads tc.arguments).getD (Json.obj [])))
          else acc) acc
        = acc ++ (l.map recentContribution).flatten := by
    intro l
    induction l with
    | nil => intro acc; simp
    | cons m tl ih =>
      intro acc
      rw [List.foldl_cons, ih]
      cases hc : (m.role = "assistant" && ¬ m.tool_calls.isEmpty) with
      | true =>
        have hce : recentContribution m =
            m.tool_calls.map (fun tc => (tc.name, (loads tc.arguments).getD (Json.obj []))) := by
          unfold recentContribution
          rw [if_pos hc]
        simp [hce, List.append_assoc]
      | false =>
        have hce : recentContribution m = [] := by
          unfold recentContribution
          rw [if_neg]
          intro hcontra
          rw [hc] at hcontra
          exact Bool.noConfusion hcontra
        simp [hce]
  unfold find_recent_tool_calls
  rw [key]
  simp

theorem frc_ne_nil_iff (messages : List Message) :
    find_recent_tool_calls messages ≠ [] ↔
      ∃ m ∈ lastN 10 messages, m.role = "assistant" ∧ m.tool_calls ≠ [] := by
  rw [frc_eq_flatten]
  constructor
  · intro h
    by_contra hno
    push_neg at hno
    apply h
    rw [List.flatten_eq_nil_iff]
    intro x hx
    obtain ⟨m, hm, rfl⟩ := List.mem_map.mp hx
    unfold recentContribution
    cases hc : (m.role = "assistant" && ¬ m.tool_calls.isEmpty) with
    | false => simp [hc]
    | true =>
      rw [Bool.and_eq_true] at hc
      have hrole : m.role = "assistant" := by simpa using hc.1
      simp [hno m hm hrole]
  · rintro ⟨m, hm, hrole, hcalls⟩ hjoin
    rw [List.flatten_eq_nil_iff] at hjoin
    have hx : recentContribution m ∈ (lastN 10 messages).map recentContribution :=
      List.mem_map.mpr ⟨m, hm, rfl⟩
    have hc : recentContribution m = [] := hjoin _ hx
    unfold recentContribution at hc
    rw [if_pos] at hc
    · exact hcalls (List.map_eq_nil_iff.mp hc)
    · simp [hrole, List.isEmpty_eq_false, hcalls]

/-- C4 (amended).  The sanitizer appends exactly one trailing user-role
reminder message — naming the deduplicated set of recently called tools — iff
`add_tool_reminder` is true, at least one assistant tool call occurs among the
most recent 10 messages of the original transcript (the lookback of
`_find_recent_tool_calls`, not the window of 4 the gateway uses to decide the
flag), and the rewritten transcript does not already end in such a reminder;
in every other case nothing is appended. -/
theorem reminder_appending :
    (∀ (messages : List Message) (add : Bool),
        add = true →
        (∃ m ∈ lastN 10 messages, m.role = "assistant" ∧ m.tool_calls ≠ []) →
        lastIsReminder (coreOf messages) = false →
        sanitize_messages messages add = coreOf messages ++ [reminderMsgOf messages])
    ∧ (∀ (messages : List Message) (add : Bool),
        ¬ (add = true ∧ (∃ m ∈ lastN 10 messages, m.role = "assistant" ∧ m.tool_calls ≠ [])
            ∧ lastIsReminder (coreOf messages) = false) →
        sanitize_messages messages add = coreOf messages)
    ∧ (∀ messages : List Message, (reminderMsgOf messages).role = "user") := by
  refine ⟨?_, ?_, fun _ => rfl⟩
  · intro messages add hadd hex hrem
    have hfrc : find_recent_tool_calls messages ≠ [] := (frc_ne_nil_iff messages).mpr hex
    unfold sanitize_messages
    rw [hadd, hrem]
    simp [List.isEmpty_eq_false, hfrc]
  · intro messages add hneg
    unfold sanitize_messages
    by_cases hadd : add = true
    · by_cases hfrc : find_recent_tool_calls messages = []
      · simp [hfrc]
      · have hex := (frc_ne_nil_iff messages).mp hfrc
        have hrem : lastIsReminder (coreOf messages) = true := by
          by_contra hr
          exact hneg ⟨hadd, hex, by simpa using hr⟩
        rw [hadd, hrem]
        simp [List.isEmpty_eq_false, hfrc]
    · have : add = false := by simpa using hadd
      rw [this]
      simp

set_option maxRecDepth 8192 in
theorem reminder_appending_witness :
    sanitize_messages [⟨"assistant", some "x", [⟨"i1", "get_task", "\x7b\x7d"⟩], none⟩] true =
      coreOf [⟨"assistant", some "x", [⟨"i1", "get_task", "\x7b\x7d"⟩], none⟩] ++
        [reminderMsgOf [⟨"assistant", some "x", [⟨"i1", "get_task", "\x7b\x7d"⟩], none⟩]] :=
  reminder_appending.1 _ true rfl
    ⟨⟨"assistant", some "x", [⟨"i1", "get_task", "\x7b\x7d"⟩], none⟩,
      by decide, rfl, by decide⟩ rfl

/-- An assistant message carrying one tool call, for the C4 counterexample. -/
def c4awc : Message := ⟨"assistant", some "x", [⟨"i1", "get_task", "\x7b\x7d"⟩], none⟩

/-- A plain user message. -/
def c4u (s : String) : Message := ⟨"user", some s, [], none⟩

/-- The counterexample transcript of C4: the only tool call sits five messages
back, outside the most recent 4 but inside the lookback of 10. -/
def c4msgs : List Message := [c4awc, c4u "1", c4u "2", c4u "3", c4u "4"]

set_option maxRecDepth 8192 in
theorem reminder_appending_cex :
    has_recent_tool_calls c4msgs 4 = false
    ∧ (sanitize_messages c4msgs true).length = c4msgs.length + 1
    ∧ ((sanitize_messages c4msgs true).getLast?.map (fun m => m.role)) = some "user"
    ∧ ((sanitize_messages c4msgs true).getLast?.map
        (fun m => strContains "recently used tools" (m.content.getD ""))) = some true :=
  ⟨rfl, rfl, rfl, rfl⟩

/-- The C5 counterexample message: an assistant message with absent content
(valid per the data model) and no tool calls. -/
def c5msg : Message := ⟨"assistant", none, [], none⟩

theorem sanitizer_idempotence_cex :
    c5msg.role ≠ "tool" ∧ c5msg.tool_calls = []
    ∧ sanitize_messages [c5msg] false ≠ [c5msg]
    ∧ sanitize_messages [c5msg] true ≠ [c5msg] := by
  refine ⟨by decide, rfl, ?_, ?_⟩ <;> decide

/-- C5 (amended).  Sanitizing a transcript with no tool-role message and no
assistant tool calls returns it unchanged, provided it is well-formed per the
data model (no stray `tool_call_id`) and every assistant message carries a
present, non-null content; an assistant message with absent content is
rewritten to carry content `""`, so the unrestricted claim fails. -/
theorem sanitizer_idempotence :
    ∀ (messages : List Message) (add : Bool),
      (∀ m ∈ messages, m.role ≠ "tool") →
      (∀ m ∈ messages, m.tool_calls = []) →
      (∀ m ∈ messages, m.tool_call_id = none) →
      (∀ m ∈ messages, m.role = "assistant" → m.content ≠ none) →
      sanitize_messages messages add = messages := by
  intro messages add h1 h2 h3 h4
  have hcore : ∀ (R : List (String × (String × ToolContent))) (l : List Message),
      (∀ m ∈ l, m.role ≠ "tool") → (∀ m ∈ l, m.tool_calls = []) →
      (∀ m ∈ l, m.tool_call_id = none) →
      (∀ m ∈ l, m.role = "assistant" → m.content ≠ none) →
      l.filterMap (sanitizeMsg R) = l := by
    intro R l
    induction l with
    | nil => intro _ _ _ _; rfl
    | cons m tl ih =>
      intro g1 g2 g3 g4
      have hm1 := g1 m (List.mem_cons_self m tl)
      have hm2 := g2 m (List.mem_cons_self m tl)
      have hm3 := g3 m (List.mem_cons_self m tl)
      have hm4 := g4 m (List.mem_cons_self m tl)
      have htl := ih (fun x hx => g1 x (List.mem_cons_of_mem m hx))
        (fun x hx => g2 x (List.mem_cons_of_mem m hx))
        (fun x hx => g3 x (List.mem_cons_of_mem m hx))
        (fun x hx => g4 x (List.mem_cons_of_mem m hx))
      have hsome : sanitizeMsg R m = some m := by
        obtain ⟨r, co, tc, tid⟩ := m
        simp only at hm1 hm2 hm3 hm4
        subst hm2
        subst hm3
        by_cases hr : r = "assistant"
        · subst hr
          obtain ⟨c, rfl⟩ : ∃ c, co = some c := by
            cases co with
            | none => exact absurd rfl (hm4 rfl)
            | some c => exact ⟨c, rfl⟩
          simp [sanitizeMsg]
        · simp [sanitizeMsg, hm1, hr]
      rw [List.filterMap_cons, hsome, htl]
  have hfrc : find_recent_tool_calls messages = [] := by
    by_contra h
    obtain ⟨m, hm, _, hcalls⟩ := (frc_ne_nil_iff messages).mp h
    have hmem : m ∈ messages := by
      unfold lastN at hm
      by_cases hlen : messages.length > 10
      · simp only [hlen, if_true] at hm
        exact List.drop_subset _ messages hm
      · simpa [hlen] using hm
    exact hcalls (h2 m hmem)
  unfold sanitize_messages coreOf
  rw [hfrc]
  simpa using hcore (find_tool_responses messages) messages h1 h2 h3 h4

theorem sanitizer_idempotence_witness :
    sanitize_messages
        [⟨"user", some "hi", [], none⟩, ⟨"assistant", some "hello", [], none⟩] true =
      [⟨"user", some "hi", [], none⟩, ⟨"assistant", some "hello", [], none⟩] :=
  sanitizer_idempotence _ true (by decide) (by decide) (by decide) (by decide)

set_option maxRecDepth 8192 in
theorem sanitizer_rewrite_cex :
    (find_tool_responses c3cexMsgs).map (fun p => p.1) = ["id1"]
    ∧ sanitize_messages c3cexMsgs false = [⟨"assistant", some c3cexText, [], none⟩]
    ∧ strEndsWith c3cexText c3cexLine = false := by
  refine ⟨rfl, rfl, ?_⟩
  decide

/-! ## Claims about the response assembler and the gateway -/

/-- C6.  Assembler with calls: for a non-empty parsed call list the assembled
response has a single choice with finish reason `tool_calls`, whose message
has absent content and exactly the parsed calls, while id, creation timestamp,
model and usage metadata are preserved from the raw response. -/
theorem assembler_with_calls :
    ∀ (response : ModelResponse) (parsed : List ToolCall), parsed ≠ [] →
      ∃ ch : Choice,
        (assembleResponse response parsed).choices = [ch]
        ∧ ch.finish_reason = some "tool_calls"
        ∧ ch.message.content = none
        ∧ ch.message.tool_calls = some parsed
        ∧ (assembleResponse response parsed).id = response.id
        ∧ (assembleResponse response parsed).created = response.created
        ∧ (assembleResponse response parsed).model = response.model
        ∧ (assembleResponse response parsed).usage = response.usage := by
  intro response parsed hne
  have hie : parsed.isEmpty = false := by
    cases parsed with
    | nil => exact absurd rfl hne
    | cons a l => rfl
  unfold assembleResponse
  rw [hie]
  cases response.choices with
  | nil => exact ⟨_, rfl, rfl, rfl, rfl, rfl, rfl, rfl, rfl⟩
  | cons c rest => exact ⟨_, rfl, rfl, rfl, rfl, rfl, rfl, rfl, rfl⟩

theorem assembler_with_calls_witness :
    ∃ ch : Choice,
      (assembleResponse
          ⟨"r1", [⟨some "stop", 0, ⟨some "text", "assistant", none⟩⟩], 7, "m1", "chat.completion",
            none, ⟨1, 2, 3⟩, 0, none⟩
          [⟨"call_0", "function", ⟨Json.str "t", "\x7b\x7d"⟩⟩]).choices = [ch]
      ∧ ch.finish_reason = some "tool_calls"
      ∧ ch.message.content = none
      ∧ ch.message.tool_calls = some [⟨"call_0", "function", ⟨Json.str "t", "\x7b\x7d"⟩⟩]
      ∧ (assembleResponse
          ⟨"r1", [⟨some "stop", 0, ⟨some "text", "assistant", none⟩⟩], 7, "m1", "chat.completion",
            none, ⟨1, 2, 3⟩, 0, none⟩
          [⟨"call_0", "function", ⟨Json.str "t", "\x7b\x7d"⟩⟩]).id = "r1"
      ∧ (assembleResponse
          ⟨"r1", [⟨some "stop", 0, ⟨some "text", "assistant", none⟩⟩], 7, "m1", "chat.completion",
            none, ⟨1, 2, 3⟩, 0, none⟩
          [⟨"call_0", "function", ⟨Json.str "t", "\x7b\x7d"⟩⟩]).created = 7
      ∧ (assembleResponse
          ⟨"r1", [⟨some "stop", 0, ⟨some "text", "assistant", none⟩⟩], 7, "m1", "chat.completion",
            none, ⟨1, 2, 3⟩, 0, none⟩
          [⟨"call_0", "function", ⟨Json.str "t", "\x7b\x7d"⟩⟩]).model = "m1"
      ∧ (assembleResponse
          ⟨"r1", [⟨some "stop", 0, ⟨some "text", "assistant", none⟩⟩], 7, "m1", "chat.completion",
            none, ⟨1, 2, 3⟩, 0, none⟩
          [⟨"call_0", "function", ⟨Json.str "t", "\x7b\x7d"⟩⟩]).usage = ⟨1, 2, 3⟩ :=
  assembler_with_calls _ _ (by intro h; exact List.noConfusion h)

/-- C7.  Assembler consistency: with an empty parsed call list the returned
head choice never carries finish reason `tool_calls` — a raw `tool_calls`
finish reason is downgraded to `stop`, anything else leaves the raw response
unchanged. -/
theorem assembler_consistency :
    ∀ response : ModelResponse,
      (∀ (ch : Choice) (rest : List Choice),
          (assembleResponse response []).choices = ch :: rest →
          ch.finish_reason ≠ some "tool_calls")
      ∧ (∀ (ch : Choice) (rest : List Choice),
          response.choices = ch :: rest → ch.finish_reason = some "tool_calls" →
          assembleResponse response [] =
            { response with choices := { ch with finish_reason := some "stop" } :: rest })
      ∧ (∀ (ch : Choice) (rest : List Choice),
          response.choices = ch :: rest → ch.finish_reason ≠ some "tool_calls" →
          assembleResponse response [] = response)
      ∧ (response.choices = [] → assembleResponse response [] = response) := by
  intro response
  refine ⟨?_, ?_, ?_, ?_⟩
  · intro ch rest hch
    cases hcs : response.choices with
    | nil =>
      have hval : assembleResponse response [] = response := by
        simp [assembleResponse, hcs]
      rw [hval, hcs] at hch
      exact List.noConfusion hch
    | cons c crest =>
      by_cases hfr : c.finish_reason = some "tool_calls"
      · have hval : (assembleResponse response []).choices =
            { c with finish_reason := some "stop" } :: crest := by
          simp [assembleResponse, hcs, hfr]
        rw [hval] at hch
        rw [← (List.cons.inj hch).1]
        intro hcontra
        exact absurd (Option.some.inj hcontra) (by decide)
      · have hval : assembleResponse response [] = response := by
          simp [assembleResponse, hcs, hfr]
        rw [hval, hcs] at hch
        rw [← (List.cons.inj hch).1]
        exact hfr
  · intro ch rest hch hfr
    simp [assembleResponse, hch, hfr]
  · intro ch rest hch hfr
    simp [assembleResponse, hch, hfr]
  · intro hnil
    simp [assembleResponse, hnil]

theorem assembler_consistency_witness :
    assembleResponse
        ⟨"r2", [⟨some "tool_calls", 0, ⟨some "t", "assistant", none⟩⟩], 3, "m2",
          "chat.completion", none, ⟨1, 1, 2⟩, 0, none⟩ [] =
      ⟨"r2", [⟨some "stop", 0, ⟨some "t", "assistant", none⟩⟩], 3, "m2",
        "chat.completion", none, ⟨1, 1, 2⟩, 0, none⟩
    ∧ assembleResponse
        ⟨"r3", [⟨some "stop", 0, ⟨some "t", "assistant", none⟩⟩], 3, "m3",
          "chat.completion", none, ⟨1, 1, 2⟩, 0, none⟩ [] =
      ⟨"r3", [⟨some "stop", 0, ⟨some "t", "assistant", none⟩⟩], 3, "m3",
        "chat.completion", none, ⟨1, 1, 2⟩, 0, none⟩ :=
  ⟨(assembler_consistency _).2.1 _ [] rfl rfl,
   (assembler_consistency _).2.2.1 _ [] rfl (by decide)⟩

/-- C10.  Gateway pass-through on missing essentials: when the model argument
is absent or empty, or the message list is empty, the request is forwarded to
the provider unchanged and its response returned unchanged, no matter what
tools are supplied or what the capability detector would say. -/
theorem gateway_passthrough_on_missing :
    ∀ (supports : String → Bool) (provider : Params → ModelResponse)
      (fresh : Nat → String) (p : Params),
      (p.model = none ∨ p.model = some "" ∨ p.messages = []) →
      completion supports provider fresh p = provider p := by
  intro supports provider fresh p h
  have hcond : (¬ truthyModel p.model || p.messages.isEmpty) = true := by
    rcases h with h | h | h
    · rw [h]; rfl
    · rw [h]; rfl
    · rw [h]
      simp
  unfold completion
  rw [if_pos hcond]

theorem gateway_passthrough_witness :
    completion (fun _ => true)
        (fun _ => ⟨"r4", [], 0, "m4", "chat.completion", none, ⟨0, 0, 0⟩, 0, none⟩)
        (fun _ => "")
        ⟨none, [⟨"user", some "hi", [], none⟩], some [Json.obj []], none⟩ =
      ⟨"r4", [], 0, "m4", "chat.completion", none, ⟨0, 0, 0⟩, 0, none⟩ :=
  gateway_passthrough_on_missing _ _ _ _ (Or.inl rfl)

end Steve
